import Mathlib

/-!
Verification of the spotifyd `utils` module (src/utils.rs) against its
natural-language specification.

The Rust code is shallowly embedded: paths are modelled as parsed component
lists (the result of Rust's `Path::components` parsing on unix), ambient
state (home directory, working directory, environment variables, filesystem
metadata, the user database) is passed explicitly, and fallible operations
return `Except` or `Option`.
-/

namespace Spotifyd

/-- A unix path after Rust's component parsing: an absolute-path marker plus
the list of remaining components (normal segments, `..`, and a possible
leading `.`); separators are already collapsed.  Rust's `Path::iter` yields
the root component `/` first for an absolute path, then the components. -/
structure RPath where
  absolute : Bool
  comps : List String
deriving DecidableEq, Repr

/-- The component sequence produced by Rust's `Path::iter`: the root marker
`/` first when the path is absolute, then the remaining components. -/
def RPath.iterComps (p : RPath) : List String :=
  if p.absolute then "/" :: p.comps else p.comps

/-- The two `io::ErrorKind`s that `absolutize_path` can produce. -/
inductive IOErrorKind where
  | invalidInput
  | notFound
deriving DecidableEq, Repr

/-- One step of lexical `.`/`..` resolution over an accumulated absolute
component list: `.` is dropped, `..` pops the last accumulated segment
(staying at the root when there is none), anything else is appended. -/
def lexStep (acc : List String) (c : String) : List String :=
  if c = "." then acc
  else if c = ".." then acc.dropLast
  else acc ++ [c]

/-- Modelled from the spec: the `path_absolutize` crate's
`Absolutize::absolutize` (the crate's code is not part of this repository).
Per the spec: if the (possibly home-expanded) path is relative, prefix it
with the current working directory; lexically resolve `.` and `..` segments
without touching the filesystem; collapse redundant separators. -/
def absolutize (cwd : RPath) (p : RPath) : RPath :=
  let comps := if p.absolute then p.comps else cwd.comps ++ p.comps
  ⟨true, comps.foldl lexStep []⟩

/-- Embedding of `absolutize_path` (src/utils.rs, lines 22-48).
`home` is the result of `dirs::home_dir()`, `cwd` the current working
directory read by the absolutization step. -/
def absolutize_path (p : RPath) (home : Option RPath) (cwd : RPath) :
    Except IOErrorKind RPath :=
  match p.iterComps with
  | [] => .error .invalidInput
  | first :: rest =>
    if first = "~" then
      match home with
      | none => .error .notFound
      | some h => .ok (absolutize cwd ⟨h.absolute, h.comps ++ rest⟩)
    else
      .ok (absolutize cwd p)

/-- The empty path: relative with no components (`Path::new("")`). -/
def RPath.isEmpty (p : RPath) : Prop := p.absolute = false ∧ p.comps = []

instance (p : RPath) : Decidable p.isEmpty := by
  unfold RPath.isEmpty; infer_instance

/-- The first component of the path as seen by `Path::iter`. -/
def RPath.firstComp (p : RPath) : Option String := p.iterComps.head?

/-! ## ConfigLocator (`get_config_path`, src/utils.rs lines 50-82) -/

/-- What `fs::metadata` reports about a path that exists: a regular file, a
directory, or a special file. -/
inductive FileKind where
  | file
  | dir
  | special
deriving DecidableEq, Repr

def CONFIG_DIRECTORY_NAME : String := "spotifyd"

def CONFIG_FILE_NAME : String := "spotifyd.conf"

/-- The ambient state read by `get_config_path`: the filesystem metadata
oracle (`none` means `fs::metadata` fails, e.g. the path does not exist),
the user-scoped configuration base directory (`none` when
`xdg::BaseDirectories::with_prefix` fails), and whether the build targets a
BSD-family host (`dragonfly`/`freebsd`/`openbsd`/`netbsd`). -/
structure CfgEnv where
  meta : String → Option FileKind
  xdgBase : Option String
  bsd : Bool

/-- The user-scoped candidate path, when the xdg base directories resolve. -/
def userCandidate (e : CfgEnv) : Option String :=
  e.xdgBase.map
    (fun base => base ++ "/" ++ CONFIG_DIRECTORY_NAME ++ "/" ++ CONFIG_FILE_NAME)

/-- Modelled from the spec: the `xdg` crate's
`BaseDirectories::find_config_file` (the crate's code is not part of this
repository).  Per the spec, the user-scoped configuration base directory is
joined with the application subdirectory and the fixed file name, and the
candidate qualifies only if it exists and is a regular file. -/
def find_config_file (e : CfgEnv) : Option String :=
  match userCandidate e with
  | none => none
  | some p => if e.meta p = some .file then some p else none

/-- The system-wide fallback path, chosen at compile time by host family. -/
def etc_path (bsd : Bool) : String :=
  (if bsd then "/usr/local/etc/" else "/etc/") ++ CONFIG_FILE_NAME

/-- Embedding of `get_config_path` (src/utils.rs, lines 50-82): the xdg
user-scoped lookup first, then the `/etc` (or `/usr/local/etc`) fallback
checked via `fs::metadata` and `Metadata::is_file`. -/
def get_config_path (e : CfgEnv) : Option String :=
  match find_config_file e with
  | some path => some path
  | none =>
    match e.meta (etc_path e.bsd) with
    | some k => if k = .file then some (etc_path e.bsd) else none
    | none => none

/-! ## UTF-8 (Rust `str::from_utf8` / `String::from_utf8_lossy` semantics)

Bytes are modelled as `Nat` (values < 256 in all uses).  `utf8Step` follows
Rust's `run_utf8_validation`: it reports, at the head of a byte list, either
a validly encoded scalar value and its length, or the length of the maximal
subpart of an ill-formed subsequence (the number of bytes one `U+FFFD`
replacement stands for under lossy decoding). -/

def isCont (b : Nat) : Bool := 0x80 ≤ b && b ≤ 0xBF

/-- Decode one UTF-8 sequence at the head of a byte list: `(some c, n)` for
a valid `n`-byte encoding of the scalar value `c`, `(none, n)` when the
first `n` bytes are the maximal subpart of an ill-formed subsequence
(`1 ≤ n ≤ 4` always; over-long forms, surrogates and values above
`U+10FFFF` are rejected, exactly as Rust's validator does). -/
def utf8Step : List Nat → Option Char × Nat
  | [] => (none, 1)
  | b0 :: rest =>
    if b0 ≤ 0x7F then (some (Char.ofNat b0), 1)
    else if 0xC2 ≤ b0 && b0 ≤ 0xDF then
      match rest with
      | b1 :: _ =>
        if isCont b1 then (some (Char.ofNat ((b0 - 0xC0) * 64 + (b1 - 0x80))), 2)
        else (none, 1)
      | [] => (none, 1)
    else if 0xE0 ≤ b0 && b0 ≤ 0xEF then
      let lo1 := if b0 = 0xE0 then 0xA0 else 0x80
      let hi1 := if b0 = 0xED then 0x9F else 0xBF
      match rest with
      | b1 :: rest1 =>
        if lo1 ≤ b1 && b1 ≤ hi1 then
          match rest1 with
          | b2 :: _ =>
            if isCont b2 then
              (some (Char.ofNat ((b0 - 0xE0) * 4096 + (b1 - 0x80) * 64 + (b2 - 0x80))), 3)
            else (none, 2)
          | [] => (none, 2)
        else (none, 1)
      | [] => (none, 1)
    else if 0xF0 ≤ b0 && b0 ≤ 0xF4 then
      let lo1 := if b0 = 0xF0 then 0x90 else 0x80
      let hi1 := if b0 = 0xF4 then 0x8F else 0xBF
      match rest with
      | b1 :: rest1 =>
        if lo1 ≤ b1 && b1 ≤ hi1 then
          match rest1 with
          | b2 :: rest2 =>
            if isCont b2 then
              match rest2 with
              | b3 :: _ =>
                if isCont b3 then
                  (some (Char.ofNat
                    ((b0 - 0xF0) * 262144 + (b1 - 0x80) * 4096
                      + (b2 - 0x80) * 64 + (b3 - 0x80))), 4)
                else (none, 3)
              | [] => (none, 3)
            else (none, 2)
          | [] => (none, 2)
        else (none, 1)
      | [] => (none, 1)
    else (none, 1)

def replacementChar : Char := Char.ofNat 0xFFFD

/-- Lossy UTF-8 decoding with one `U+FFFD` per maximal ill-formed subpart
(Rust's `String::from_utf8_lossy`); fuel-driven, `fuel = length` suffices
since every step consumes at least one byte. -/
def lossyDecodeAux : Nat → List Nat → List Char
  | 0, _ => []
  | _ + 1, [] => []
  | fuel + 1, b :: bs =>
    (match (utf8Step (b :: bs)).1 with
      | some c => c
      | none => replacementChar)
      :: lossyDecodeAux fuel (bs.drop ((utf8Step (b :: bs)).2 - 1))

def lossyDecode (bs : List Nat) : List Char := lossyDecodeAux bs.length bs

/-- Strict UTF-8 decoding (Rust `str::from_utf8` / `String::from_utf8`):
any ill-formed byte makes the whole decode fail. -/
def strictDecodeAux : Nat → List Nat → Option (List Char)
  | 0, [] => some []
  | 0, _ :: _ => none
  | _ + 1, [] => some []
  | fuel + 1, b :: bs =>
    match utf8Step (b :: bs) with
    | (some c, n) => (strictDecodeAux fuel (bs.drop (n - 1))).map (fun cs => c :: cs)
    | (none, _) => none

def strictDecode (bs : List Nat) : Option String :=
  (strictDecodeAux bs.length bs).map String.mk

/-- UTF-8 encoding of one scalar value, as a byte (`Nat`) list. -/
def utf8EncodeCharNat (c : Char) : List Nat :=
  let n := c.toNat
  if n < 0x80 then [n]
  else if n < 0x800 then [0xC0 + n / 64, 0x80 + n % 64]
  else if n < 0x10000 then [0xE0 + n / 4096, 0x80 + (n / 64) % 64, 0x80 + n % 64]
  else [0xF0 + n / 262144, 0x80 + (n / 4096) % 64, 0x80 + (n / 64) % 64, 0x80 + n % 64]

/-- The UTF-8 byte sequence of a string. -/
def strBytes (s : String) : List Nat := (s.toList.map utf8EncodeCharNat).flatten

/-- The UTF-8 byte size of a string. -/
def strByteLen (s : String) : Nat := (strBytes s).length

/-! ## HostIdentity (`get_hostname` lines 84-96, `get_username` lines 157-169)

The native call (`libc::gethostname` / `getlogin_r`) writes into a 255-byte
thread-local buffer; its outcome is modelled as `none` when the call returns
non-zero and `some buf` (the post-call buffer contents) on success.
`CStr::from_ptr` reads the bytes before the first NUL; `to_string_lossy`
decodes them with `U+FFFD` substitution. -/

/-- The bytes `CStr::from_ptr` reads from the buffer: everything before the
first NUL byte. -/
def cstrBytes (buf : List Nat) : List Nat := buf.takeWhile (fun b => b != 0)

/-- Embedding of `get_hostname` (src/utils.rs, lines 84-96). -/
def get_hostname (native : Option (List Nat)) : Option String :=
  native.map (fun buf => String.mk (lossyDecode (cstrBytes buf)))

/-- Embedding of `get_username` (src/utils.rs, lines 157-169); identical to
`get_hostname` with `getlogin_r` in place of `libc::gethostname`. -/
def get_username (native : Option (List Nat)) : Option String :=
  native.map (fun buf => String.mk (lossyDecode (cstrBytes buf)))

/-! ## ShellDetector (`get_shell`, src/utils.rs lines 98-155)

Embedded as compiled for a non-macOS host (the `#[cfg(target_os = "macos")]`
block is compiled out; the `#[cfg(not(target_os = "macos"))]` user-database
scan is compiled in). -/

/-- The ambient state `get_shell` reads: the raw bytes of the `SHELL`
environment variable (`none` = unset), the native `getlogin_r` outcome, and
`/etc/passwd` (`none` = the file cannot be opened; a `none` line = reading
that line produced an I/O error). -/
structure ShellEnv where
  shellVar : Option (List Nat)
  usernameNative : Option (List Nat)
  passwd : Option (List (Option String))

/-- `env::var("SHELL")`: `Ok` exactly when the variable is set to valid
UTF-8; a `VarError` (unset or non-unicode) collapses to `none` since the
code only tests `Ok`. -/
def env_var (bytes : Option (List Nat)) : Option String :=
  bytes.bind strictDecode

/-- Rust's `str::split(':')` over the characters accumulated so far:
substrings between `:` occurrences, empty substrings included, always at
least one element. -/
def splitColonAux : List Char → List Char → List String
  | [], acc => [String.mk acc.reverse]
  | c :: cs, acc =>
    if c = ':' then String.mk acc.reverse :: splitColonAux cs []
    else splitColonAux cs (c :: acc)

/-- Rust's `line.split(':')`, collected. -/
def splitColon (s : String) : List String := splitColonAux s.toList []

/-- The `for line in reader.lines()` loop of `get_shell`: `line.ok()?`
aborts on a read error; `iter.nth(0)` takes the first colon-separated
field; on a username match, `iter.nth(5)?` takes the seventh field or
aborts; otherwise the loop continues. -/
def scanPasswd (username : String) : List (Option String) → Option String
  | [] => none
  | none :: _ => none
  | some line :: rest =>
    match splitColon line with
    | [] => scanPasswd username rest
    | user :: others =>
      if user = username then others.get? 5
      else scanPasswd username rest

/-- Embedding of `get_shell` (src/utils.rs, lines 98-155) on a non-macOS
host: `SHELL` environment variable first, then the `/etc/passwd` scan. -/
def get_shell (e : ShellEnv) : Option String :=
  match env_var e.shellVar with
  | some shell => some shell
  | none =>
    match get_username e.usernameNative with
    | none => none
    | some u =>
      match e.passwd with
      | none => none
      | some lines => scanPasswd u lines

/-! ## The full ambient state, for the purity/determinism claim -/

/-- Every piece of ambient host state any function of the module reads. -/
structure Ambient where
  home : Option RPath
  cwd : RPath
  shellVar : Option (List Nat)
  hostnameNative : Option (List Nat)
  usernameNative : Option (List Nat)
  passwd : Option (List (Option String))
  meta : String → Option FileKind
  xdgBase : Option String
  bsd : Bool

/-- `absolutize_path` run against the full ambient state: it consults only
the home directory and the current working directory. -/
def absolutize_path_run (p : RPath) (a : Ambient) : Except IOErrorKind RPath :=
  absolutize_path p a.home a.cwd

/-- A `/etc/passwd` line the scan loop passes over without effect: readable
(`some`) and with a first field different from the username. -/
def lineSkipped (u : String) (l : Option String) : Prop :=
  match l with
  | none => False
  | some s => (splitColon s).head? ≠ some u

instance (u : String) (l : Option String) : Decidable (lineSkipped u l) :=
  match l with
  | none => isFalse (fun h => h)
  | some s => inferInstanceAs (Decidable ((splitColon s).head? ≠ some u))

/-! # Helper lemmas -/

theorem absolutize_path_abs (p : RPath) (home : Option RPath) (cwd : RPath)
    (h : p.absolute = true) :
    absolutize_path p home cwd = .ok (absolutize cwd p) := by
  simp [absolutize_path, RPath.iterComps, h]

theorem absolutize_path_rel_empty (home : Option RPath) (cwd : RPath) :
    absolutize_path ⟨false, []⟩ home cwd = .error .invalidInput := by
  simp [absolutize_path, RPath.iterComps]

theorem absolutize_path_rel_tilde (cs : List String) (home : RPath) (cwd : RPath) :
    absolutize_path ⟨false, "~" :: cs⟩ (some home) cwd =
      .ok (absolutize cwd ⟨home.absolute, home.comps ++ cs⟩) := by
  simp [absolutize_path, RPath.iterComps]

theorem absolutize_path_rel_tilde_no_home (cs : List String) (cwd : RPath) :
    absolutize_path ⟨false, "~" :: cs⟩ none cwd = .error .notFound := by
  simp [absolutize_path, RPath.iterComps]

theorem absolutize_path_rel_other (c : String) (cs : List String)
    (home : Option RPath) (cwd : RPath) (h : c ≠ "~") :
    absolutize_path ⟨false, c :: cs⟩ home cwd =
      .ok (absolutize cwd ⟨false, c :: cs⟩) := by
  simp [absolutize_path, RPath.iterComps, h]

theorem foldl_lexStep_no_dots (cs : List String) (acc : List String)
    (h : ∀ x ∈ cs, x ≠ "." ∧ x ≠ "..") :
    cs.foldl lexStep acc = acc ++ cs := by
  induction cs generalizing acc with
  | nil => simp
  | cons c cs ih =>
    have hc := h c (by simp)
    rw [List.foldl_cons]
    rw [ih (lexStep acc c) (fun x hx => h x (by simp [hx]))]
    simp [lexStep, hc.1, hc.2]

theorem scanPasswd_append_skipped (u : String) (pre tail : List (Option String))
    (h : ∀ l ∈ pre, lineSkipped u l) :
    scanPasswd u (pre ++ tail) = scanPasswd u tail := by
  induction pre with
  | nil => rfl
  | cons l ls ih =>
    cases l with
    | none => exact absurd (h none (by simp)) (fun hf => hf)
    | some s =>
      have hl : (splitColon s).head? ≠ some u := h (some s) (by simp)
      have step : scanPasswd u (some s :: (ls ++ tail)) = scanPasswd u (ls ++ tail) := by
        cases hsp : splitColon s with
        | nil => simp [scanPasswd, hsp]
        | cons user others =>
          have hne : user ≠ u := by
            intro he
            exact hl (by rw [hsp, he]; rfl)
          simp [scanPasswd, hsp, hne]
      rw [List.cons_append, step, ih (fun l hl' => h l (by simp [hl']))]

theorem scanPasswd_match_head (u : String) (line : String)
    (rest : List (Option String)) (hline : (splitColon line).head? = some u) :
    scanPasswd u (some line :: rest) = (splitColon line).get? 6 := by
  cases hsp : splitColon line with
  | nil => rw [hsp] at hline; exact absurd hline (by simp)
  | cons user others =>
    rw [hsp] at hline
    have huser : user = u := by simpa using hline
    subst huser
    simp [scanPasswd, hsp]

theorem get_shell_shellVar_unset (e : ShellEnv) (h : e.shellVar = none)
    (u : String) (lines : List (Option String))
    (hu : get_username e.usernameNative = some u)
    (hp : e.passwd = some lines) :
    get_shell e = scanPasswd u lines := by
  simp [get_shell, env_var, h, hu, hp]

theorem cstrBytes_length_lt (buf : List Nat) (h : (0 : Nat) ∈ buf) :
    (cstrBytes buf).length < buf.length := by
  induction buf with
  | nil => simp at h
  | cons b bs ih =>
    by_cases hb : b = 0
    · subst hb
      simp [cstrBytes]
    · have h0 : (0 : Nat) ∈ bs := by
        rcases List.mem_cons.mp h with h1 | h1
        · exact absurd h1.symm hb
        · exact h1
      have : cstrBytes (b :: bs) = b :: cstrBytes bs := by
        simp [cstrBytes, List.takeWhile_cons, hb]
      rw [this]
      simpa [cstrBytes] using Nat.succ_lt_succ (ih h0)

theorem lossyDecodeAux_length_le (fuel : Nat) :
    ∀ bs : List Nat, (lossyDecodeAux fuel bs).length ≤ fuel := by
  induction fuel with
  | zero => intro bs; simp [lossyDecodeAux]
  | succ n ih =>
    intro bs
    cases bs with
    | nil => simp [lossyDecodeAux]
    | cons b bs' =>
      rw [lossyDecodeAux]
      simpa using Nat.succ_le_succ (ih _)

theorem lossyDecode_length_le (bs : List Nat) :
    (lossyDecode bs).length ≤ bs.length :=
  lossyDecodeAux_length_le bs.length bs

/-! # Claim theorems -/

/-- Claim C1: for every input path whose first component is exactly the
single character `~`, `absolutize_path` replaces that component with the
resolved home directory and appends all remaining original components
unchanged (and then absolutizes); for every non-empty path whose first
component is not exactly `~` (`~` embedded mid-path, `~` as a prefix of a
longer first segment such as `~foo`, or `~` anywhere but the first
component), no home substitution occurs and the path is returned unchanged
except for absolutization. -/
theorem absolutize_path_tilde_first_component :
    ∀ (p : RPath) (home cwd : RPath) (home? : Option RPath),
      (p.firstComp = some "~" →
        absolutize_path p (some home) cwd =
          .ok (absolutize cwd ⟨home.absolute, home.comps ++ p.comps.tail⟩)) ∧
      (p.firstComp ≠ some "~" → ¬ p.isEmpty →
        absolutize_path p home? cwd = .ok (absolutize cwd p)) := by
  intro p home cwd home?
  obtain ⟨abs, comps⟩ := p
  constructor
  · intro hfc
    cases abs with
    | true =>
      simp [RPath.firstComp, RPath.iterComps] at hfc
    | false =>
      cases comps with
      | nil => simp [RPath.firstComp, RPath.iterComps] at hfc
      | cons c cs =>
        simp [RPath.firstComp, RPath.iterComps] at hfc
        subst hfc
        simpa using absolutize_path_rel_tilde cs home cwd
  · intro hfc hne
    cases abs with
    | true => exact absolutize_path_abs _ _ _ rfl
    | false =>
      cases comps with
      | nil => exact absurd ⟨rfl, rfl⟩ hne
      | cons c cs =>
        simp [RPath.firstComp, RPath.iterComps] at hfc
        exact absolutize_path_rel_other c cs home? cwd hfc

/-- Claim C1 witness: a concrete tilde path is home-expanded, and a
concrete absolute path containing `~` in non-first position is returned
with no home substitution. -/
theorem absolutize_path_tilde_first_component_witness :
    absolutize_path ⟨false, ["~", "foo"]⟩ (some ⟨true, ["home", "u"]⟩)
        ⟨true, ["cwd"]⟩ =
      .ok (absolutize ⟨true, ["cwd"]⟩ ⟨true, ["home", "u", "foo"]⟩) ∧
    absolutize_path ⟨true, ["foo", "~"]⟩ (some ⟨true, ["home", "u"]⟩)
        ⟨true, ["cwd"]⟩ =
      .ok (absolutize ⟨true, ["cwd"]⟩ ⟨true, ["foo", "~"]⟩) :=
  ⟨(absolutize_path_tilde_first_component ⟨false, ["~", "foo"]⟩
      ⟨true, ["home", "u"]⟩ ⟨true, ["cwd"]⟩ (some ⟨true, ["home", "u"]⟩)).1 rfl,
   (absolutize_path_tilde_first_component ⟨true, ["foo", "~"]⟩
      ⟨true, ["home", "u"]⟩ ⟨true, ["cwd"]⟩ (some ⟨true, ["home", "u"]⟩)).2
      (by decide) (by decide)⟩

/-- Claim C2: `absolutize_path` fails with `InvalidInput` iff the input
path is empty; fails with `NotFound` iff the first component is exactly
`~` and the home directory cannot be resolved; and for every other input
it returns a successful result. -/
theorem absolutize_path_error_iff :
    ∀ (p : RPath) (home : Option RPath) (cwd : RPath),
      (absolutize_path p home cwd = .error .invalidInput ↔ p.isEmpty) ∧
      (absolutize_path p home cwd = .error .notFound ↔
        p.firstComp = some "~" ∧ home = none) ∧
      (¬ p.isEmpty → (p.firstComp = some "~" → home ≠ none) →
        ∃ r, absolutize_path p home cwd = .ok r) := by
  intro p home cwd
  obtain ⟨abs, comps⟩ := p
  cases abs with
  | true =>
    rw [absolutize_path_abs ⟨true, comps⟩ home cwd rfl]
    refine ⟨by simp [RPath.isEmpty], by simp [RPath.firstComp, RPath.iterComps], ?_⟩
    intro _ _
    exact ⟨_, rfl⟩
  | false =>
    cases comps with
    | nil =>
      rw [absolutize_path_rel_empty home cwd]
      refine ⟨by simp [RPath.isEmpty],
        by simp [RPath.firstComp, RPath.iterComps], ?_⟩
      intro hne _
      exact absurd ⟨rfl, rfl⟩ hne
    | cons c cs =>
      by_cases hc : c = "~"
      · subst hc
        cases home with
        | none =>
          rw [absolutize_path_rel_tilde_no_home cs cwd]
          refine ⟨by simp [RPath.isEmpty], ?_, ?_⟩
          · simp [RPath.firstComp, RPath.iterComps]
          · intro _ h
            exact absurd rfl (h (by simp [RPath.firstComp, RPath.iterComps]))
        | some h =>
          rw [absolutize_path_rel_tilde cs h cwd]
          refine ⟨by simp [RPath.isEmpty], by simp, ?_⟩
          intro _ _
          exact ⟨_, rfl⟩
      · rw [absolutize_path_rel_other c cs home cwd hc]
        refine ⟨by simp [RPath.isEmpty], ?_, ?_⟩
        · simp [RPath.firstComp, RPath.iterComps, hc]
        · intro _ _
          exact ⟨_, rfl⟩

/-- Claim C2 witness: the empty path gives `InvalidInput`; `~` with no
resolvable home gives `NotFound`; an ordinary relative path with no home
available still succeeds. -/
theorem absolutize_path_error_iff_witness :
    absolutize_path ⟨false, []⟩ none ⟨true, ["cwd"]⟩ = .error .invalidInput ∧
    absolutize_path ⟨false, ["~"]⟩ none ⟨true, ["cwd"]⟩ = .error .notFound ∧
    ∃ r, absolutize_path ⟨false, ["foo"]⟩ none ⟨true, ["cwd"]⟩ = .ok r :=
  ⟨(absolutize_path_error_iff ⟨false, []⟩ none ⟨true, ["cwd"]⟩).1.mpr
      (by constructor <;> rfl),
   (absolutize_path_error_iff ⟨false, ["~"]⟩ none ⟨true, ["cwd"]⟩).2.1.mpr
      ⟨rfl, rfl⟩,
   (absolutize_path_error_iff ⟨false, ["foo"]⟩ none ⟨true, ["cwd"]⟩).2.2
      (by decide) (by decide)⟩

/-- Claim C7: the `.`/`..` resolution of `absolutize_path` is purely
lexical (the embedding consults no filesystem or symlink oracle at all): a
relative path is prefixed with the current working directory; a `..`
following any normal segment pops that segment regardless of what exists on
disk; and the input `~/foo/..` yields exactly the home directory whenever
the home directory is an absolute path of normal segments. -/
theorem absolutize_path_lexical :
    ∀ (cwd home : RPath) (base : List String) (c : String),
      (c ≠ "." → c ≠ ".." →
        absolutize cwd ⟨true, base ++ [c, ".."]⟩ = absolutize cwd ⟨true, base⟩) ∧
      (∀ p : RPath, p.absolute = false →
        absolutize cwd p = absolutize cwd ⟨true, cwd.comps ++ p.comps⟩) ∧
      (home.absolute = true → (∀ x ∈ home.comps, x ≠ "." ∧ x ≠ "..") →
        absolutize_path ⟨false, ["~", "foo", ".."]⟩ (some home) cwd = .ok home) := by
  intro cwd home base c
  refine ⟨?_, ?_, ?_⟩
  · intro hc hcc
    have h1 : ∀ acc : List String, List.foldl lexStep acc [c, ".."] = acc := by
      intro acc
      simp [lexStep, hc, hcc, List.dropLast_concat]
    simp [absolutize, List.foldl_append, h1]
  · intro p hp
    simp [absolutize, hp]
  · intro habs hnd
    rw [absolutize_path_rel_tilde ["foo", ".."] home cwd]
    obtain ⟨habs', comps⟩ := home
    simp only at habs
    subst habs
    have h1 : ∀ acc : List String, List.foldl lexStep acc ["foo", ".."] = acc := by
      intro acc
      simp [lexStep, List.dropLast_concat]
    simp [absolutize, List.foldl_append, h1, foldl_lexStep_no_dots comps [] hnd]

/-- Claim C7 witness: `~/foo/..` with home `/home/u` resolves to exactly
`/home/u`, with no filesystem consulted. -/
theorem absolutize_path_lexical_witness :
    absolutize_path ⟨false, ["~", "foo", ".."]⟩ (some ⟨true, ["home", "u"]⟩)
        ⟨true, ["cwd"]⟩ = .ok ⟨true, ["home", "u"]⟩ :=
  (absolutize_path_lexical ⟨true, ["cwd"]⟩ ⟨true, ["home", "u"]⟩ [] "x").2.2
    rfl (by decide)

/-- Claim C9: `absolutize_path`, run against the full ambient host state,
is a pure function of the input path, the home directory and the current
working directory: two ambient states that agree on home directory and
working directory (but may differ in every other respect: environment
variables, filesystem contents, user database, native-call outcomes) give
identical results. -/
theorem absolutize_path_run_pure :
    ∀ (p : RPath) (a b : Ambient), a.home = b.home → a.cwd = b.cwd →
      absolutize_path_run p a = absolutize_path_run p b := by
  intro p a b h1 h2
  simp [absolutize_path_run, h1, h2]

/-- Claim C9 witness: two concrete ambient states agreeing only on home
and working directory give the same result. -/
theorem absolutize_path_run_pure_witness :
    absolutize_path_run ⟨false, ["~", "x"]⟩
        ⟨some ⟨true, ["h"]⟩, ⟨true, ["c"]⟩, none, none, none, none,
          fun _ => none, none, false⟩ =
      absolutize_path_run ⟨false, ["~", "x"]⟩
        ⟨some ⟨true, ["h"]⟩, ⟨true, ["c"]⟩, some [65], some [66, 0],
          some [67, 0], some [some "root:x:0:0::/root:/bin/sh"],
          fun _ => some .file, some "/xdg", true⟩ :=
  absolutize_path_run_pure ⟨false, ["~", "x"]⟩ _ _ rfl rfl

/-- Claim C4: `get_config_path` evaluates its two candidate locations in
fixed priority order, user-scoped xdg candidate first and the system-wide
etc path second, returning the first qualifying one: when the user-scoped
candidate is a regular file it is returned (whatever the etc path holds);
when it is not and the etc path is a regular file, the etc path is
returned; when neither qualifies the result is `none`, a normal absent
outcome rather than an error. -/
theorem get_config_path_priority :
    ∀ (e : CfgEnv),
      (∀ up, userCandidate e = some up → e.meta up = some .file →
        get_config_path e = some up) ∧
      ((∀ up, userCandidate e = some up → e.meta up ≠ some .file) →
        e.meta (etc_path e.bsd) = some .file →
        get_config_path e = some (etc_path e.bsd)) ∧
      ((∀ up, userCandidate e = some up → e.meta up ≠ some .file) →
        e.meta (etc_path e.bsd) ≠ some .file →
        get_config_path e = none) := by
  intro e
  refine ⟨?_, ?_, ?_⟩
  · intro up hup hfile
    simp [get_config_path, find_config_file, hup, hfile]
  · intro huser hetc
    have hfcf : find_config_file e = none := by
      unfold find_config_file
      cases hup : userCandidate e with
      | none => rfl
      | some up => simp [huser up hup]
    simp [get_config_path, hfcf, hetc]
  · intro huser hetc
    have hfcf : find_config_file e = none := by
      unfold find_config_file
      cases hup : userCandidate e with
      | none => rfl
      | some up => simp [huser up hup]
    unfold get_config_path
    rw [hfcf]
    cases hm : e.meta (etc_path e.bsd) with
    | none => rfl
    | some k =>
      have : k ≠ .file := by
        intro hk
        exact hetc (by rw [hm, hk])
      simp [this]

/-- Claim C4 witness: with both candidates present as regular files the
user-scoped path wins; with neither present the result is `none`. -/
theorem get_config_path_priority_witness :
    get_config_path
        ⟨fun _ => some .file, some "/home/u/.config", false⟩ =
      some "/home/u/.config/spotifyd/spotifyd.conf" ∧
    get_config_path ⟨fun _ => none, some "/home/u/.config", false⟩ = none :=
  ⟨(get_config_path_priority
      ⟨fun _ => some .file, some "/home/u/.config", false⟩).1
      "/home/u/.config/spotifyd/spotifyd.conf" rfl rfl,
   (get_config_path_priority ⟨fun _ => none, some "/home/u/.config", false⟩).2.2
      (fun _ _ => by simp) (by simp)⟩

/-- Claim C6: every path `get_config_path` returns, user-scoped or
system-wide, is one whose filesystem metadata reports an existing regular
file, never a directory or special file. -/
theorem get_config_path_regular_file :
    ∀ (e : CfgEnv) (p : String),
      get_config_path e = some p → e.meta p = some .file := by
  intro e p h
  unfold get_config_path at h
  cases hfcf : find_config_file e with
  | some q =>
    rw [hfcf] at h
    have hq : q = p := by simpa using h
    subst hq
    unfold find_config_file at hfcf
    cases hup : userCandidate e with
    | none => rw [hup] at hfcf; exact absurd hfcf (by simp)
    | some up =>
      rw [hup] at hfcf
      by_cases hf : e.meta up = some .file
      · simp [hf] at hfcf
        rw [← hfcf]
        exact hf
      · simp [hf] at hfcf
  | none =>
    rw [hfcf] at h
    cases hm : e.meta (etc_path e.bsd) with
    | none => rw [hm] at h; exact absurd h (by simp)
    | some k =>
      rw [hm] at h
      by_cases hk : k = .file
      · subst hk
        simp at h
        rw [← h]
        exact hm
      · simp [hk] at h

/-- Claim C6 witness: a concrete environment whose etc path is a regular
file: the returned path's metadata is `file`. -/
theorem get_config_path_regular_file_witness :
    (fun p => if p = "/etc/spotifyd.conf" then some FileKind.file else none)
        ("/etc/spotifyd.conf") = some FileKind.file :=
  get_config_path_regular_file
    ⟨fun p => if p = "/etc/spotifyd.conf" then some FileKind.file else none,
      none, false⟩
    "/etc/spotifyd.conf" (by decide)

/-- Claim C5 counterexample: with `SHELL` set to the single byte `0xFF`
(a legal unix environment value that is not UTF-8), `get_shell` does not
return that value verbatim: `env::var` rejects it (validation does
happen), the chain consults the user database instead, and the result even
depends on the database's contents — `/bin/sh` under one `/etc/passwd`,
nothing under another, for the identical `SHELL` value. -/
theorem get_shell_env_verbatim_cex :
    get_shell ⟨some [255], some (strBytes "alice" ++ [0]),
        some [some "alice:x:1:1::/home/alice:/bin/sh"]⟩ = some "/bin/sh" ∧
    strBytes "/bin/sh" ≠ [255] ∧
    get_shell ⟨some [255], some (strBytes "alice" ++ [0]), some []⟩ = none := by
  refine ⟨by decide, by decide, by decide⟩

/-- Claim C5 amended: for every state of the environment in which `SHELL`
is set to a value that is valid UTF-8, `get_shell` returns exactly that
value verbatim, with no further validation and without consulting any
other source (the username, the user database and everything else are
arbitrary); a non-UTF-8 value, however, is rejected by `env::var` and the
chain falls through. -/
theorem get_shell_env_verbatim_utf8 :
    ∀ (e : ShellEnv) (bs : List Nat) (s : String),
      e.shellVar = some bs → strictDecode bs = some s →
      get_shell e = some s := by
  intro e bs s h1 h2
  simp [get_shell, env_var, h1, h2]

/-- Claim C5 amended witness: `SHELL=/bin/zsh` is returned verbatim with
no user database available at all. -/
theorem get_shell_env_verbatim_utf8_witness :
    get_shell ⟨some (strBytes "/bin/zsh"), none, none⟩ = some "/bin/zsh" :=
  get_shell_env_verbatim_utf8 ⟨some (strBytes "/bin/zsh"), none, none⟩
    (strBytes "/bin/zsh") "/bin/zsh" rfl (by decide)

/-- Claim C3: on a non-macOS host with `SHELL` unset, `get_shell` scans the
user database line by line, splits on `:`, and returns field index 6 of
the first line whose first field equals the resolved username; if the
username is unavailable, the file cannot be opened, or no line matches, it
returns `none` — and the embedding of the non-macOS build contains no
further source to attempt. -/
theorem get_shell_passwd_scan :
    ∀ (e : ShellEnv),
      e.shellVar = none →
      (get_username e.usernameNative = none → get_shell e = none) ∧
      (∀ u, get_username e.usernameNative = some u → e.passwd = none →
        get_shell e = none) ∧
      (∀ u pre line rest, get_username e.usernameNative = some u →
        e.passwd = some (pre ++ some line :: rest) →
        (∀ l ∈ pre, lineSkipped u l) →
        (splitColon line).head? = some u →
        get_shell e = (splitColon line).get? 6) ∧
      (∀ u lines, get_username e.usernameNative = some u →
        e.passwd = some lines → (∀ l ∈ lines, lineSkipped u l) →
        get_shell e = none) := by
  intro e hsh
  refine ⟨?_, ?_, ?_, ?_⟩
  · intro hu
    simp [get_shell, env_var, hsh, hu]
  · intro u hu hp
    simp [get_shell, env_var, hsh, hu, hp]
  · intro u pre line rest hu hp hpre hline
    rw [get_shell_shellVar_unset e hsh u _ hu hp]
    rw [scanPasswd_append_skipped u pre _ hpre]
    exact scanPasswd_match_head u line rest hline
  · intro u lines hu hp hall
    rw [get_shell_shellVar_unset e hsh u lines hu hp]
    have h1 : scanPasswd u (lines ++ []) = scanPasswd u [] :=
      scanPasswd_append_skipped u lines [] hall
    rw [List.append_nil] at h1
    exact h1

/-- Claim C3 witness: with `SHELL` unset and username `alice`, the scan
skips the non-matching `root` line and returns the seventh field of the
first `alice` line. -/
theorem get_shell_passwd_scan_witness :
    get_shell ⟨none, some (strBytes "alice" ++ [0]),
        some [some "root:x:0:0:root:/root:/bin/bash",
              some "alice:x:1000:1000::/home/alice:/bin/sh"]⟩ =
      some "/bin/sh" :=
  ((get_shell_passwd_scan ⟨none, some (strBytes "alice" ++ [0]),
        some [some "root:x:0:0:root:/root:/bin/bash",
              some "alice:x:1000:1000::/home/alice:/bin/sh"]⟩ rfl).2.2.1
      "alice" [some "root:x:0:0:root:/root:/bin/bash"]
      "alice:x:1000:1000::/home/alice:/bin/sh" [] (by decide) rfl
      (by decide) (by decide)).trans (by decide)

/-- Claim C10: in the non-macOS user-database scan, if the first matching
line has fewer than seven colon-separated fields, or if reading any line
before a match produces an I/O error, `get_shell` returns `none`
immediately — it does not skip the defective line and keep scanning, even
when a later line would match with a full seven fields. -/
theorem get_shell_scan_aborts :
    ∀ (e : ShellEnv) (u : String) (pre rest : List (Option String))
      (line : String),
      e.shellVar = none →
      get_username e.usernameNative = some u →
      (e.passwd = some (pre ++ some line :: rest) →
        (∀ l ∈ pre, lineSkipped u l) →
        (splitColon line).head? = some u →
        (splitColon line).length < 7 →
        get_shell e = none) ∧
      (e.passwd = some (pre ++ none :: rest) →
        (∀ l ∈ pre, lineSkipped u l) →
        get_shell e = none) := by
  intro e u pre rest line hsh hu
  constructor
  · intro hp hpre hline hlen
    rw [get_shell_shellVar_unset e hsh u _ hu hp]
    rw [scanPasswd_append_skipped u pre _ hpre]
    rw [scanPasswd_match_head u line rest hline]
    exact List.get?_eq_none.mpr (by omega)
  · intro hp hpre
    rw [get_shell_shellVar_unset e hsh u _ hu hp]
    rw [scanPasswd_append_skipped u pre _ hpre]
    rfl

/-- Claim C10 witness: the first `alice` line is truncated (three fields),
so the scan aborts with `none` even though the very next line is a
complete matching `alice` record. -/
theorem get_shell_scan_aborts_witness :
    get_shell ⟨none, some (strBytes "alice" ++ [0]),
        some [some "root:x:0:0:root:/root:/bin/bash",
              some "alice:x:1000",
              some "alice:x:1000:1000::/home/alice:/bin/sh"]⟩ = none :=
  ((get_shell_scan_aborts ⟨none, some (strBytes "alice" ++ [0]),
        some [some "root:x:0:0:root:/root:/bin/bash",
              some "alice:x:1000",
              some "alice:x:1000:1000::/home/alice:/bin/sh"]⟩
      "alice" [some "root:x:0:0:root:/root:/bin/bash"]
      [some "alice:x:1000:1000::/home/alice:/bin/sh"]
      "alice:x:1000" rfl (by decide)).1 rfl (by decide) (by decide)
      (by decide))

set_option maxRecDepth 4000 in
/-- Claim C8 counterexample: a successful native call can fill the 255-byte
buffer with 85 `0xFF` bytes (not valid UTF-8) before the NUL terminator;
lossy decoding turns each into the three-byte `U+FFFD`, so the returned
string occupies 255 UTF-8 bytes — more than the claimed 254-byte bound. -/
theorem get_hostname_byte_bound_cex :
    (List.replicate 85 255 ++ List.replicate 170 0 : List Nat).length = 255 ∧
    (get_hostname (some (List.replicate 85 255 ++ List.replicate 170 0))).map
        strByteLen = some 255 := by
  refine ⟨by decide, by decide⟩

/-- Claim C8 amended: on native-call failure `get_hostname` and
`get_username` return `none` rather than raising any error; on success
(modelled as the 255-byte buffer contents, NUL-terminated within the
buffer) they decode at most 254 bytes of native data and return a string
of at most 254 characters — but the string's UTF-8 byte size may exceed
254 when the native value contains invalid UTF-8, since each invalid byte
becomes a three-byte replacement character. -/
theorem hostname_username_bounds :
    ∀ (buf : List Nat),
      (get_hostname none = none ∧ get_username none = none) ∧
      (buf.length ≤ 255 → (0 : Nat) ∈ buf →
        ∃ s, get_hostname (some buf) = some s ∧
          get_username (some buf) = some s ∧ s.length ≤ 254) := by
  intro buf
  refine ⟨⟨rfl, rfl⟩, ?_⟩
  intro hlen hmem
  refine ⟨String.mk (lossyDecode (cstrBytes buf)), rfl, rfl, ?_⟩
  have h1 : (lossyDecode (cstrBytes buf)).length ≤ (cstrBytes buf).length :=
    lossyDecode_length_le _
  have h2 : (cstrBytes buf).length < buf.length := cstrBytes_length_lt buf hmem
  have h3 : (String.mk (lossyDecode (cstrBytes buf))).length =
      (lossyDecode (cstrBytes buf)).length := rfl
  omega

/-- Claim C8 amended witness: a concrete successful native outcome, with
both functions returning the same bounded string, and the failure case. -/
theorem hostname_username_bounds_witness :
    (get_hostname none = none ∧ get_username none = none) ∧
    ∃ s, get_hostname (some [104, 105, 0]) = some s ∧
      get_username (some [104, 105, 0]) = some s ∧ s.length ≤ 254 :=
  ⟨(hostname_username_bounds []).1,
   (hostname_username_bounds [104, 105, 0]).2 (by decide) (by decide)⟩

end Spotifyd
